import Mathlib

/-!
Verification of the mps2_an521_rs ELF symbol-table reader.

This file shallowly embeds the two source components the claims are about:

* src/libs/stpack/src/lib.rs — the unpacker facility (a macro generating,
  for a declared list of fixed-width unsigned-integer fields, a SIZE
  constant and two decoders unpack_le / unpack_be).  We model it
  generically over the list of field byte-widths: a record is the list of
  decoded field values in declared order.
* the ELF parser crate, symtab.rs — the Elf32/Elf64 symbol-table entry
  layouts and the SymtabIterator over a section list.

Machine integers are modelled as Nat (u8/u16/u32/u64 values are
nonnegative and all arithmetic performed by the source on them is
overflow-free on the paths modelled here; byte lists carry one Nat per
byte).  Fallible operations return Option; the iterator yields
Option (Except ElfParserError ElfParser.Symbol) together with its updated state.
-/

namespace stpack

/-- Little-endian value of a byte list: the first byte is least
significant.  Models the generated from_le_bytes call on the field's
byte slice. -/
def bytesToNatLE (bs : List Nat) : Nat :=
  bs.foldr (fun b acc => b + 256 * acc) 0

/-- Big-endian value of a byte list: the first byte is most significant.
Models the generated from_be_bytes call on the field's byte slice. -/
def bytesToNatBE (bs : List Nat) : Nat :=
  bs.foldl (fun acc b => acc * 256 + b) 0

/-- Endianness-dispatched byte-list decode. -/
def readOne (le : Bool) (bs : List Nat) : Nat :=
  if le then bytesToNatLE bs else bytesToNatBE bs

/-- Sum of the declared field widths; models the macro's internal
allsize rule (SIZE constant). -/
def allsize (widths : List Nat) : Nat :=
  widths.foldr (fun w acc => w + acc) 0

/-- Field reads generated by the macro's constructor rule: each field is
read, in declared order, from the byte slice starting at the cumulative
width of the fields before it. -/
def readFields (le : Bool) (data : List Nat) : Nat → List Nat → List Nat
  | _, [] => []
  | off, w :: ws => readOne le ((data.drop off).take w) :: readFields le data (off + w) ws

/-- Generic model of the generated unpack_le (le = true) / unpack_be
(le = false) functions: fail when the input is shorter than SIZE,
otherwise split at SIZE, read every field from the left part and return
the record together with the right part. -/
def unpack (widths : List Nat) (le : Bool) (data : List Nat) :
    Option (List Nat × List Nat) :=
  if data.length < allsize widths then none
  else
    some (readFields le (data.take (allsize widths)) 0 widths,
          data.drop (allsize widths))

end stpack

/-- Manual field read used to state the spec's "manual field-by-field
decode": the unsigned value, under endianness le, of the width-w byte
slice of bs starting at byte offset off. -/
def readUInt (le : Bool) (bs : List Nat) (off w : Nat) : Nat :=
  stpack.readOne le ((bs.drop off).take w)

/-- Byte representation of a value, little endian, least significant
byte first; used only to state the spec's round-trip property. -/
def natToBytesLE : Nat → Nat → List Nat
  | 0, _ => []
  | w + 1, v => v % 256 :: natToBytesLE w (v / 256)

/-- Width-sized byte representation of a value under an endianness;
used only to state the spec's round-trip property. -/
def natToBytes (le : Bool) (w v : Nat) : List Nat :=
  if le then natToBytesLE w v else (natToBytesLE w v).reverse

/-- Record encoder from the spec's words: concatenate each field's
width-sized byte representation in declared order. -/
def encodeRecord (le : Bool) : List Nat → List Nat → List Nat
  | [], _ => []
  | _, [] => []
  | w :: ws, v :: vs => natToBytes le w v ++ encodeRecord le ws vs

/-- ELF address-width class (the ELF parser crate, ident.rs,
consumed by symtab.rs). -/
inductive ElfClass where
  | Elf32 : ElfClass
  | Elf64 : ElfClass
deriving DecidableEq

/-- ELF endianness (the ELF parser crate, ident.rs, consumed by
symtab.rs). -/
inductive ElfEndian where
  | ElfLE : ElfEndian
  | ElfBE : ElfEndian
deriving DecidableEq, BEq

/-- ELF section as consumed by the iterator (field set as in the
ElfSection struct used throughout the repository's tests); typ, link,
entsize and content are the fields symtab.rs reads. -/
structure ElfSection where
  name : String
  typ : Nat
  flags : Nat
  addr : Nat
  link : Nat
  info : Nat
  addralign : Nat
  entsize : Nat
  content : List Nat
deriving DecidableEq, Inhabited

namespace ElfParser

/-- Resolved symbol (the ELF parser crate, symbol.rs): value and size
are u64 in the source; name is the string produced by the string-table
lookup collaborator.  Namespaced as in the source crate path
the parser crate symbol module (the bare name exists in Mathlib). -/
structure Symbol where
  name : String
  value : Nat
  size : Nat
  info : Nat
  other : Nat
  shndx : Nat
deriving DecidableEq

end ElfParser

deriving instance DecidableEq for Except

/-- Error kinds of symtab.rs, one per ElfParserError::new site:
InvalidEntrySize = "Symtab section entry size is 0",
MalformedEntry = "Failed to parse symtab entry",
InvalidLinkIndex = "Symtab refer invalid strtab section index",
LinkNotStringTable = "Symtab linked section is not SHT_STRTAB". -/
inductive ElfParserError where
  | InvalidEntrySize : ElfParserError
  | MalformedEntry : ElfParserError
  | InvalidLinkIndex : ElfParserError
  | LinkNotStringTable : ElfParserError
deriving DecidableEq

def SHT_SYMTAB : Nat := 2

def SHT_STRTAB : Nat := 3

/-- 32-bit symbol-table entry (symtab.rs lines 16-25): fields in
declared order name:u32, value:u32, size:u32, info:u8, other:u8,
shndx:u16. -/
structure Elf32SymtabEntry where
  name : Nat
  value : Nat
  size : Nat
  info : Nat
  other : Nat
  shndx : Nat
deriving DecidableEq

/-- Declared field byte-widths of Elf32SymtabEntry, in order. -/
def Elf32SymtabEntry.widths : List Nat := [4, 4, 4, 1, 1, 2]

def Elf32SymtabEntry.SIZE : Nat := stpack.allsize Elf32SymtabEntry.widths

/-- Assemble an Elf32SymtabEntry from the decoded field list, assigning
fields in declared order as the generated constructor does. -/
def Elf32SymtabEntry.ofFields (l : List Nat) : Elf32SymtabEntry :=
  ⟨l.getD 0 0, l.getD 1 0, l.getD 2 0, l.getD 3 0, l.getD 4 0, l.getD 5 0⟩

def Elf32SymtabEntry.unpack_le (data : List Nat) :
    Option (Elf32SymtabEntry × List Nat) :=
  (stpack.unpack Elf32SymtabEntry.widths true data).map
    (fun p => (Elf32SymtabEntry.ofFields p.1, p.2))

def Elf32SymtabEntry.unpack_be (data : List Nat) :
    Option (Elf32SymtabEntry × List Nat) :=
  (stpack.unpack Elf32SymtabEntry.widths false data).map
    (fun p => (Elf32SymtabEntry.ofFields p.1, p.2))

/-- Modelled from the spec: the stpack Unpacker trait's unpack method is
not under src/ (only the macro-generated unpack_le/unpack_be are); per
spec section 4.1 decode takes the endianness, so unpack dispatches to
unpack_le or unpack_be on the le flag. -/
def Elf32SymtabEntry.unpack (data : List Nat) (le : Bool) :
    Option (Elf32SymtabEntry × List Nat) :=
  if le then Elf32SymtabEntry.unpack_le data else Elf32SymtabEntry.unpack_be data

/-- 64-bit symbol-table entry (symtab.rs lines 27-36): fields in
declared order name:u32, info:u8, other:u8, shndx:u16, value:u64,
size:u64. -/
structure Elf64SymtabEntry where
  name : Nat
  info : Nat
  other : Nat
  shndx : Nat
  value : Nat
  size : Nat
deriving DecidableEq

/-- Declared field byte-widths of Elf64SymtabEntry, in order. -/
def Elf64SymtabEntry.widths : List Nat := [4, 1, 1, 2, 8, 8]

def Elf64SymtabEntry.SIZE : Nat := stpack.allsize Elf64SymtabEntry.widths

/-- Assemble an Elf64SymtabEntry from the decoded field list, assigning
fields in declared order as the generated constructor does. -/
def Elf64SymtabEntry.ofFields (l : List Nat) : Elf64SymtabEntry :=
  ⟨l.getD 0 0, l.getD 1 0, l.getD 2 0, l.getD 3 0, l.getD 4 0, l.getD 5 0⟩

def Elf64SymtabEntry.unpack_le (data : List Nat) :
    Option (Elf64SymtabEntry × List Nat) :=
  (stpack.unpack Elf64SymtabEntry.widths true data).map
    (fun p => (Elf64SymtabEntry.ofFields p.1, p.2))

def Elf64SymtabEntry.unpack_be (data : List Nat) :
    Option (Elf64SymtabEntry × List Nat) :=
  (stpack.unpack Elf64SymtabEntry.widths false data).map
    (fun p => (Elf64SymtabEntry.ofFields p.1, p.2))

/-- Modelled from the spec: endianness dispatch of the Unpacker trait's
unpack method, as for Elf32SymtabEntry.unpack. -/
def Elf64SymtabEntry.unpack (data : List Nat) (le : Bool) :
    Option (Elf64SymtabEntry × List Nat) :=
  if le then Elf64SymtabEntry.unpack_le data else Elf64SymtabEntry.unpack_be data

/-- Record size of the entry layout selected by the ELF class. -/
def entrySize : ElfClass → Nat
  | ElfClass.Elf32 => Elf32SymtabEntry.SIZE
  | ElfClass.Elf64 => Elf64SymtabEntry.SIZE

/-- Field widths of the entry layout selected by the ELF class. -/
def layoutWidths : ElfClass → List Nat
  | ElfClass.Elf32 => Elf32SymtabEntry.widths
  | ElfClass.Elf64 => Elf64SymtabEntry.widths

/-- Iterator state (symtab.rs lines 38-44); cls is the source's class
field (class is a Lean keyword). -/
structure SymtabIterator where
  cls : ElfClass
  le : Bool
  sections : List ElfSection
  curr_secidx : Nat
  curr_symidx : Nat
deriving DecidableEq

/-- SymtabIterator::new (symtab.rs lines 47-58). -/
def SymtabIterator.new (cls : ElfClass) (endian : ElfEndian)
    (sections : List ElfSection) : SymtabIterator :=
  ⟨cls, endian == ElfEndian.ElfLE, sections, 0, 0⟩

/-- Outcome of the section-scan loop at the top of next()
(symtab.rs lines 69-88): errEntsize is the early return at line 77
(before the cursor write-back), found/exhausted carry the loop's final
secidx and symidx values. -/
inductive ScanResult where
  | errEntsize : ScanResult
  | found : Nat → Nat → ScanResult
  | exhausted : Nat → Nat → ScanResult
deriving DecidableEq

/-- Section-scan loop of next(), recursing over the not-yet-visited
suffix of the section list while carrying the absolute section index:
a symtab section with entsize 0 aborts, a symtab section with an
undecoded whole entry left stops the scan, anything else advances to
the next section with the entry index reset to 0. -/
def scanLoop : List ElfSection → Nat → Nat → ScanResult
  | [], secidx, symidx => ScanResult.exhausted secidx symidx
  | sec :: rest, secidx, symidx =>
    if sec.typ = SHT_SYMTAB then
      if sec.entsize = 0 then ScanResult.errEntsize
      else if symidx < sec.content.length / sec.entsize then
        ScanResult.found secidx symidx
      else scanLoop rest (secidx + 1) 0
    else scanLoop rest (secidx + 1) 0

/-- Class-dispatched entry decode of next() (symtab.rs lines 100-127):
the result tuple is (name offset, value, size, info, other, shndx); in
the Elf32 arm value and size are the u32 fields cast to u64, which on
Nat is the identity (zero extension). -/
def decodeFields (cls : ElfClass) (le : Bool) (data : List Nat) :
    Option (Nat × Nat × Nat × Nat × Nat × Nat) :=
  match cls with
  | ElfClass.Elf32 =>
    match Elf32SymtabEntry.unpack data le with
    | some (ent, _) => some (ent.name, ent.value, ent.size, ent.info, ent.other, ent.shndx)
    | none => none
  | ElfClass.Elf64 =>
    match Elf64SymtabEntry.unpack data le with
    | some (ent, _) => some (ent.name, ent.value, ent.size, ent.info, ent.other, ent.shndx)
    | none => none

/-- Entry-processing tail of next() (symtab.rs lines 97-157), reached
when the scan stopped at entry symidx of section secidx: the cursor has
just been written back as (secidx, symidx); decode the entry at byte
offset entsize * symidx, then check the link bound, then the linked
section's type, then resolve the name and advance the entry cursor.
Only the success path advances curr_symidx. -/
def processEntry (lookup : List Nat → Nat → String) (cls : ElfClass) (le : Bool)
    (sections : List ElfSection) (secidx symidx : Nat) :
    Option (Except ElfParserError ElfParser.Symbol) × SymtabIterator :=
  let s1 : SymtabIterator := ⟨cls, le, sections, secidx, symidx⟩
  let sec := sections.getD secidx default
  let data := sec.content.drop (sec.entsize * symidx)
  match decodeFields cls le data with
  | none => (some (Except.error ElfParserError.MalformedEntry), s1)
  | some (nameoff, value, size, info, other, shndx) =>
    if sections.length ≤ sec.link then
      (some (Except.error ElfParserError.InvalidLinkIndex), s1)
    else if (sections.getD sec.link default).typ ≠ SHT_STRTAB then
      (some (Except.error ElfParserError.LinkNotStringTable), s1)
    else
      (some (Except.ok
        { name := lookup (sections.getD sec.link default).content nameoff,
          value := value, size := size, info := info, other := other,
          shndx := shndx }),
       ⟨cls, le, sections, secidx, symidx + 1⟩)

/-- SymtabIterator::next (symtab.rs lines 64-157).  The string-table
lookup collaborator (string_table::read_str_from_offset, outside this
component) is passed in as the lookup argument.  On the entsize-0 early
return the state is returned unchanged (the source returns before the
cursor write-back); on exhaustion the written-back cursor is returned
with output none. -/
def SymtabIterator.next (lookup : List Nat → Nat → String) (s : SymtabIterator) :
    Option (Except ElfParserError ElfParser.Symbol) × SymtabIterator :=
  match scanLoop (s.sections.drop s.curr_secidx) s.curr_secidx s.curr_symidx with
  | ScanResult.errEntsize => (some (Except.error ElfParserError.InvalidEntrySize), s)
  | ScanResult.exhausted secidx symidx =>
    (none, ⟨s.cls, s.le, s.sections, secidx, symidx⟩)
  | ScanResult.found secidx symidx =>
    processEntry lookup s.cls s.le s.sections secidx symidx

/-- Pull the iterator n times, collecting the yielded items (stopping
early on none) and returning the final state. -/
def runIter (lookup : List Nat → Nat → String) :
    SymtabIterator → Nat → List (Except ElfParserError ElfParser.Symbol) × SymtabIterator
  | s, 0 => ([], s)
  | s, n + 1 =>
    match SymtabIterator.next lookup s with
    | (none, s1) => ([], s1)
    | (some r, s1) =>
      let p := runIter lookup s1 n
      (r :: p.1, p.2)

/-- Manual field-by-field decode of one raw entry (the spec side of the
refinement claims): entry is the raw byte slice of the entry, read at
the ELF ABI offsets of the class's layout, with the name resolved by
the lookup collaborator from the string-table content. -/
def manualSymbol (cls : ElfClass) (le : Bool) (lookup : List Nat → Nat → String)
    (strtabContent entry : List Nat) : ElfParser.Symbol :=
  match cls with
  | ElfClass.Elf32 =>
    { name := lookup strtabContent (readUInt le entry 0 4),
      value := readUInt le entry 4 4, size := readUInt le entry 8 4,
      info := readUInt le entry 12 1, other := readUInt le entry 13 1,
      shndx := readUInt le entry 14 2 }
  | ElfClass.Elf64 =>
    { name := lookup strtabContent (readUInt le entry 0 4),
      value := readUInt le entry 8 8, size := readUInt le entry 16 8,
      info := readUInt le entry 4 1, other := readUInt le entry 5 1,
      shndx := readUInt le entry 6 2 }

/-- Skip condition of one scan step: a section is passed over without
yielding when it is not symbol-table-typed, or is symbol-table-typed
with a nonzero entry size but no whole entry left at the given entry
index. -/
def skipsAt (sec : ElfSection) (symidx : Nat) : Prop :=
  sec.typ ≠ SHT_SYMTAB ∨ (sec.entsize ≠ 0 ∧ sec.content.length / sec.entsize ≤ symidx)

/-- The state's scan, restated on the state's own fields. -/
def scanOf (s : SymtabIterator) : ScanResult :=
  scanLoop (s.sections.drop s.curr_secidx) s.curr_secidx s.curr_symidx

/-- Class-dispatched tuple of manual field reads from one raw entry
slice, in the result order of next()'s decode arm. -/
def fieldsTuple (cls : ElfClass) (le : Bool) (entry : List Nat) :
    Nat × Nat × Nat × Nat × Nat × Nat :=
  match cls with
  | ElfClass.Elf32 =>
    (readUInt le entry 0 4, readUInt le entry 4 4, readUInt le entry 8 4,
     readUInt le entry 12 1, readUInt le entry 13 1, readUInt le entry 14 2)
  | ElfClass.Elf64 =>
    (readUInt le entry 0 4, readUInt le entry 8 8, readUInt le entry 16 8,
     readUInt le entry 4 1, readUInt le entry 5 1, readUInt le entry 6 2)

namespace stpack

theorem allsize_eq_sum (widths : List Nat) : allsize widths = widths.sum := by
  induction widths with
  | nil => rfl
  | cons w ws ih => simp [allsize] at ih ⊢; omega

theorem allsize_cons (w : Nat) (ws : List Nat) :
    allsize (w :: ws) = w + allsize ws := rfl

theorem readFields_length (le : Bool) (data : List Nat) :
    ∀ (ws : List Nat) (off : Nat), (readFields le data off ws).length = ws.length := by
  intro ws
  induction ws with
  | nil => intro off; rfl
  | cons w ws ih => intro off; simp [readFields, ih]

theorem readFields_getD (le : Bool) (data : List Nat) :
    ∀ (ws : List Nat) (off i : Nat), i < ws.length →
      (readFields le data off ws).getD i 0 =
        readOne le ((data.drop (off + (ws.take i).sum)).take (ws.getD i 0)) := by
  intro ws
  induction ws with
  | nil => intro off i h; simp at h
  | cons w ws ih =>
    intro off i h
    cases i with
    | zero => simp [readFields]
    | succ j =>
      have hj : j < ws.length := by simpa using h
      simp only [readFields, List.getD_cons_succ]
      rw [ih (off + w) j hj]
      have : off + w + (ws.take j).sum = off + ((w :: ws).take (j + 1)).sum := by
        simp [List.sum_cons]; omega
      rw [this]

theorem unpack_none_iff (widths : List Nat) (le : Bool) (data : List Nat) :
    unpack widths le data = none ↔ data.length < allsize widths := by
  unfold unpack
  split <;> simp_all

theorem unpack_eq_of_le (widths : List Nat) (le : Bool) (data : List Nat)
    (h : allsize widths ≤ data.length) :
    unpack widths le data =
      some (readFields le (data.take (allsize widths)) 0 widths,
            data.drop (allsize widths)) := by
  unfold unpack
  rw [if_neg (by omega)]

end stpack

/-- Slicing inside a prefix agrees with slicing the whole list when the
slice stays within the prefix. -/
theorem take_drop_take {α : Type} (l : List α) (k o w : Nat) (h : o + w ≤ k) :
    ((l.take k).drop o).take w = (l.drop o).take w := by
  rw [List.drop_take, List.take_take]
  congr 1
  omega

theorem elf32_size_eq : Elf32SymtabEntry.SIZE = 16 := by decide

theorem elf64_size_eq : Elf64SymtabEntry.SIZE = 24 := by decide

theorem entrySize_pos (cls : ElfClass) : 0 < entrySize cls := by
  cases cls <;> decide

theorem elf32_unpack_eq (data : List Nat) (le : Bool) :
    Elf32SymtabEntry.unpack data le =
      (stpack.unpack Elf32SymtabEntry.widths le data).map
        (fun p => (Elf32SymtabEntry.ofFields p.1, p.2)) := by
  cases le <;> rfl

theorem elf64_unpack_eq (data : List Nat) (le : Bool) :
    Elf64SymtabEntry.unpack data le =
      (stpack.unpack Elf64SymtabEntry.widths le data).map
        (fun p => (Elf64SymtabEntry.ofFields p.1, p.2)) := by
  cases le <;> rfl

theorem decodeFields_none_iff (cls : ElfClass) (le : Bool) (data : List Nat) :
    decodeFields cls le data = none ↔ data.length < entrySize cls := by
  cases cls
  case Elf32 =>
    have : entrySize ElfClass.Elf32 = stpack.allsize Elf32SymtabEntry.widths := rfl
    rw [this, ← stpack.unpack_none_iff Elf32SymtabEntry.widths le data]
    cases h : stpack.unpack Elf32SymtabEntry.widths le data with
    | none => simp [decodeFields, elf32_unpack_eq, h]
    | some p => simp [decodeFields, elf32_unpack_eq, h]
  case Elf64 =>
    have : entrySize ElfClass.Elf64 = stpack.allsize Elf64SymtabEntry.widths := rfl
    rw [this, ← stpack.unpack_none_iff Elf64SymtabEntry.widths le data]
    cases h : stpack.unpack Elf64SymtabEntry.widths le data with
    | none => simp [decodeFields, elf64_unpack_eq, h]
    | some p => simp [decodeFields, elf64_unpack_eq, h]

theorem decodeFields_eq_of_le (cls : ElfClass) (le : Bool) (data : List Nat)
    (h : entrySize cls ≤ data.length) :
    decodeFields cls le data = some (fieldsTuple cls le (data.take (entrySize cls))) := by
  cases cls
  case Elf32 =>
    have h' : stpack.allsize Elf32SymtabEntry.widths ≤ data.length := h
    simp only [decodeFields, elf32_unpack_eq,
      stpack.unpack_eq_of_le _ le _ h', Option.map_some', fieldsTuple]
    simp [stpack.readFields, Elf32SymtabEntry.ofFields, Elf32SymtabEntry.widths,
      readUInt, entrySize, Elf32SymtabEntry.SIZE, stpack.allsize]
  case Elf64 =>
    have h' : stpack.allsize Elf64SymtabEntry.widths ≤ data.length := h
    simp only [decodeFields, elf64_unpack_eq,
      stpack.unpack_eq_of_le _ le _ h', Option.map_some', fieldsTuple]
    simp [stpack.readFields, Elf64SymtabEntry.ofFields, Elf64SymtabEntry.widths,
      readUInt, entrySize, Elf64SymtabEntry.SIZE, stpack.allsize]

theorem scanLoop_found_step (sec : ElfSection) (rest : List ElfSection) (a b : Nat)
    (htyp : sec.typ = SHT_SYMTAB) (hes : sec.entsize ≠ 0)
    (hb : b < sec.content.length / sec.entsize) :
    scanLoop (sec :: rest) a b = ScanResult.found a b := by
  simp [scanLoop, htyp, hes, hb]

theorem scanLoop_skip (sec : ElfSection) (rest : List ElfSection) (a b : Nat)
    (h : skipsAt sec b) :
    scanLoop (sec :: rest) a b = scanLoop rest (a + 1) 0 := by
  rcases h with h | ⟨hes, hcnt⟩
  · simp [scanLoop, h]
  · by_cases htyp : sec.typ = SHT_SYMTAB
    · simp [scanLoop, htyp, hes, Nat.not_lt_of_le hcnt]
    · simp [scanLoop, htyp]

/-- Full characterization of a successful section scan: the landing
section is symbol-table-typed with a nonzero entry size and a whole
entry left at the landing entry index; the landing entry index is the
incoming one when no section boundary was crossed and zero otherwise;
and every section passed over was skipped (not a symbol table, or no
whole entry left). -/
theorem scanLoop_found_spec :
    ∀ (l : List ElfSection) (a b s i : Nat),
      scanLoop l a b = ScanResult.found s i →
      a ≤ s ∧ s - a < l.length ∧
      (l.getD (s - a) default).typ = SHT_SYMTAB ∧
      (l.getD (s - a) default).entsize ≠ 0 ∧
      i < (l.getD (s - a) default).content.length / (l.getD (s - a) default).entsize ∧
      (s = a → i = b) ∧ (a < s → i = 0) ∧
      (∀ j, j < s - a → skipsAt (l.getD j default) (if j = 0 then b else 0)) := by
  intro l
  induction l with
  | nil => intro a b s i h; simp [scanLoop] at h
  | cons sec rest ih =>
    intro a b s i h
    by_cases htyp : sec.typ = SHT_SYMTAB
    · by_cases hes : sec.entsize = 0
      · simp [scanLoop, htyp, hes] at h
      · by_cases hb : b < sec.content.length / sec.entsize
        · rw [scanLoop_found_step sec rest a b htyp hes hb] at h
          injection h with h1 h2
          subst h1; subst h2
          refine ⟨Nat.le_refl _, ?_, ?_, ?_, ?_, fun _ => rfl, ?_, ?_⟩
          · simp
          · simpa using htyp
          · simpa using hes
          · simpa using hb
          · intro hlt; omega
          · intro j hj; omega
        · have hskip : skipsAt sec b := Or.inr ⟨hes, Nat.le_of_not_lt hb⟩
          rw [scanLoop_skip sec rest a b hskip] at h
          obtain ⟨h1, h2, h3, h4, h5, h6, h7, h8⟩ := ih (a + 1) 0 s i h
          have hsa : 1 ≤ s - a := by omega
          have hidx : s - a = (s - (a + 1)) + 1 := by omega
          refine ⟨by omega, by simp; omega, ?_, ?_, ?_, by omega, ?_, ?_⟩
          · rw [hidx]; simpa using h3
          · rw [hidx]; simpa using h4
          · rw [hidx]; simpa using h5
          · intro _
            rcases Nat.lt_or_ge (a + 1) s with hlt | hge
            · exact h7 hlt
            · exact h6 (by omega)
          · intro j hj
            cases j with
            | zero => simpa using hskip
            | succ k =>
              have := h8 k (by omega)
              rcases eq_or_ne k 0 with rfl | hk
              · simpa using this
              · simp [hk] at this ⊢
                exact this
    · have hskip : skipsAt sec b := Or.inl htyp
      rw [scanLoop_skip sec rest a b hskip] at h
      obtain ⟨h1, h2, h3, h4, h5, h6, h7, h8⟩ := ih (a + 1) 0 s i h
      have hidx : s - a = (s - (a + 1)) + 1 := by omega
      refine ⟨by omega, by simp; omega, ?_, ?_, ?_, by omega, ?_, ?_⟩
      · rw [hidx]; simpa using h3
      · rw [hidx]; simpa using h4
      · rw [hidx]; simpa using h5
      · intro _
        rcases Nat.lt_or_ge (a + 1) s with hlt | hge
        · exact h7 hlt
        · exact h6 (by omega)
      · intro j hj
        cases j with
        | zero => simpa using hskip
        | succ k =>
          have := h8 k (by omega)
          rcases eq_or_ne k 0 with rfl | hk
          · simpa using this
          · simp [hk] at this ⊢
            exact this

theorem getD_drop_eq (L : List ElfSection) (c k : Nat) :
    (L.drop c).getD k default = L.getD (c + k) default := by
  simp [List.getD_eq_getElem?_getD, List.getElem?_drop]

theorem getD_eq_of_lt (L : List ElfSection) (s : Nat) (hs : s < L.length) :
    L.getD s default = L.get ⟨s, hs⟩ := by
  simp [List.getD_eq_getElem?_getD, List.getElem?_eq_getElem hs]

theorem scanLoop_found_self (L : List ElfSection) (s i : Nat)
    (hs : s < L.length)
    (htyp : (L.getD s default).typ = SHT_SYMTAB)
    (hes : (L.getD s default).entsize ≠ 0)
    (hi : i < (L.getD s default).content.length / (L.getD s default).entsize) :
    scanLoop (L.drop s) s i = ScanResult.found s i := by
  rw [List.drop_eq_getElem_cons hs]
  have hg : L[s] = L.getD s default := (getD_eq_of_lt L s hs).symm
  rw [hg]
  exact scanLoop_found_step _ _ _ _ htyp hes hi

theorem next_of_found (lookup : List Nat → Nat → String) (s : SymtabIterator)
    (secidx symidx : Nat) (h : scanOf s = ScanResult.found secidx symidx) :
    SymtabIterator.next lookup s = processEntry lookup s.cls s.le s.sections secidx symidx := by
  simp [SymtabIterator.next, scanOf] at h ⊢
  rw [h]

theorem next_of_errEntsize (lookup : List Nat → Nat → String) (s : SymtabIterator)
    (h : scanOf s = ScanResult.errEntsize) :
    SymtabIterator.next lookup s = (some (Except.error ElfParserError.InvalidEntrySize), s) := by
  simp [SymtabIterator.next, scanOf] at h ⊢
  rw [h]

/-- Properties of the landing section of a successful scan, transported
to absolute indices into the full section list. -/
theorem scanOf_found_props (s : SymtabIterator) (secidx symidx : Nat)
    (h : scanOf s = ScanResult.found secidx symidx) :
    secidx < s.sections.length ∧
    (s.sections.getD secidx default).typ = SHT_SYMTAB ∧
    (s.sections.getD secidx default).entsize ≠ 0 ∧
    symidx < (s.sections.getD secidx default).content.length /
      (s.sections.getD secidx default).entsize := by
  obtain ⟨h1, h2, h3, h4, h5, -⟩ :=
    scanLoop_found_spec _ _ _ _ _ h
  rw [getD_drop_eq, Nat.add_sub_cancel' h1] at h3 h4 h5
  refine ⟨?_, h3, h4, h5⟩
  have := List.length_drop s.curr_secidx s.sections ▸ h2
  omega

theorem processEntry_malformed (lookup : List Nat → Nat → String) (cls : ElfClass)
    (le : Bool) (sections : List ElfSection) (secidx symidx : Nat)
    (h : decodeFields cls le ((sections.getD secidx default).content.drop
      ((sections.getD secidx default).entsize * symidx)) = none) :
    processEntry lookup cls le sections secidx symidx =
      (some (Except.error ElfParserError.MalformedEntry),
       ⟨cls, le, sections, secidx, symidx⟩) := by
  simp only [List.getD_eq_getElem?_getD] at h
  simp [processEntry, h]

theorem processEntry_invalidLink (lookup : List Nat → Nat → String) (cls : ElfClass)
    (le : Bool) (sections : List ElfSection) (secidx symidx : Nat)
    (nameoff value size info other shndx : Nat)
    (h : decodeFields cls le ((sections.getD secidx default).content.drop
      ((sections.getD secidx default).entsize * symidx)) =
      some (nameoff, value, size, info, other, shndx))
    (hlink : sections.length ≤ (sections.getD secidx default).link) :
    processEntry lookup cls le sections secidx symidx =
      (some (Except.error ElfParserError.InvalidLinkIndex),
       ⟨cls, le, sections, secidx, symidx⟩) := by
  simp only [List.getD_eq_getElem?_getD] at h hlink
  simp [processEntry, h, hlink]

theorem processEntry_linkNotStrtab (lookup : List Nat → Nat → String) (cls : ElfClass)
    (le : Bool) (sections : List ElfSection) (secidx symidx : Nat)
    (nameoff value size info other shndx : Nat)
    (h : decodeFields cls le ((sections.getD secidx default).content.drop
      ((sections.getD secidx default).entsize * symidx)) =
      some (nameoff, value, size, info, other, shndx))
    (hlink : (sections.getD secidx default).link < sections.length)
    (htyp : (sections.getD (sections.getD secidx default).link default).typ ≠ SHT_STRTAB) :
    processEntry lookup cls le sections secidx symidx =
      (some (Except.error ElfParserError.LinkNotStringTable),
       ⟨cls, le, sections, secidx, symidx⟩) := by
  simp only [List.getD_eq_getElem?_getD] at h hlink htyp
  simp [processEntry, h, Nat.not_le_of_lt hlink, htyp]

theorem processEntry_ok (lookup : List Nat → Nat → String) (cls : ElfClass)
    (le : Bool) (sections : List ElfSection) (secidx symidx : Nat)
    (nameoff value size info other shndx : Nat)
    (h : decodeFields cls le ((sections.getD secidx default).content.drop
      ((sections.getD secidx default).entsize * symidx)) =
      some (nameoff, value, size, info, other, shndx))
    (hlink : (sections.getD secidx default).link < sections.length)
    (htyp : (sections.getD (sections.getD secidx default).link default).typ = SHT_STRTAB) :
    processEntry lookup cls le sections secidx symidx =
      (some (Except.ok
        { name := lookup (sections.getD (sections.getD secidx default).link default).content nameoff,
          value := value, size := size, info := info, other := other, shndx := shndx }),
       ⟨cls, le, sections, secidx, symidx + 1⟩) := by
  simp only [List.getD_eq_getElem?_getD] at h hlink htyp ⊢
  simp [processEntry, h, Nat.not_le_of_lt hlink, htyp]

theorem next_of_exhausted (lookup : List Nat → Nat → String) (s : SymtabIterator)
    (secidx symidx : Nat) (h : scanOf s = ScanResult.exhausted secidx symidx) :
    SymtabIterator.next lookup s = (none, ⟨s.cls, s.le, s.sections, secidx, symidx⟩) := by
  simp [SymtabIterator.next, scanOf] at h ⊢
  rw [h]

/-- After a decode, link-bound or link-type failure the written-back
cursor still names the failing entry, so the next call recomputes the
same failing entry and returns the same error with the same state. -/
theorem next_error_sticky (lookup : List Nat → Nat → String) (s s' : SymtabIterator)
    (e : ElfParserError)
    (h : SymtabIterator.next lookup s = (some (Except.error e), s'))
    (he : e ≠ ElfParserError.InvalidEntrySize) :
    SymtabIterator.next lookup s' = (some (Except.error e), s') := by
  cases hscan : scanOf s with
  | errEntsize =>
    rw [next_of_errEntsize lookup s hscan] at h
    simp [Prod.ext_iff] at h
    exact absurd h.1.symm he
  | exhausted a b =>
    rw [next_of_exhausted lookup s a b hscan] at h
    simp [Prod.ext_iff] at h
  | found a b =>
    rw [next_of_found lookup s a b hscan] at h
    obtain ⟨hlt, htyp, hes, hcnt⟩ := scanOf_found_props s a b hscan
    have hscan1 : scanOf (⟨s.cls, s.le, s.sections, a, b⟩ : SymtabIterator) =
        ScanResult.found a b := by
      show scanLoop (s.sections.drop a) a b = ScanResult.found a b
      exact scanLoop_found_self s.sections a b hlt htyp hes hcnt
    cases hdec : decodeFields s.cls s.le
        ((s.sections.getD a default).content.drop
          ((s.sections.getD a default).entsize * b)) with
    | none =>
      rw [processEntry_malformed lookup _ _ _ _ _ hdec] at h
      simp [Prod.ext_iff] at h
      obtain ⟨he1, hs1⟩ := h
      rw [← hs1]
      rw [next_of_found lookup _ a b hscan1]
      rw [processEntry_malformed lookup _ _ _ _ _ hdec]
      simp [he1]
    | some t =>
      obtain ⟨nameoff, value, size, info, other, shndx⟩ := t
      by_cases hlink : s.sections.length ≤ (s.sections.getD a default).link
      · rw [processEntry_invalidLink lookup _ _ _ _ _ _ _ _ _ _ _ hdec hlink] at h
        simp [Prod.ext_iff] at h
        obtain ⟨he1, hs1⟩ := h
        rw [← hs1]
        rw [next_of_found lookup _ a b hscan1]
        rw [processEntry_invalidLink lookup _ _ _ _ _ _ _ _ _ _ _ hdec hlink]
        simp [he1]
      · have hlink' : (s.sections.getD a default).link < s.sections.length :=
          Nat.lt_of_not_le hlink
        by_cases hst : (s.sections.getD (s.sections.getD a default).link default).typ
            = SHT_STRTAB
        · rw [processEntry_ok lookup _ _ _ _ _ _ _ _ _ _ _ hdec hlink' hst] at h
          simp [Prod.ext_iff] at h
        · rw [processEntry_linkNotStrtab lookup _ _ _ _ _ _ _ _ _ _ _ hdec hlink' hst] at h
          simp [Prod.ext_iff] at h
          obtain ⟨he1, hs1⟩ := h
          rw [← hs1]
          rw [next_of_found lookup _ a b hscan1]
          rw [processEntry_linkNotStrtab lookup _ _ _ _ _ _ _ _ _ _ _ hdec hlink' hst]
          simp [he1]

theorem manualSymbol_eq_fieldsTuple (cls : ElfClass) (le : Bool)
    (lookup : List Nat → Nat → String) (st entry : List Nat) :
    manualSymbol cls le lookup st entry =
      { name := lookup st (fieldsTuple cls le entry).1,
        value := (fieldsTuple cls le entry).2.1,
        size := (fieldsTuple cls le entry).2.2.1,
        info := (fieldsTuple cls le entry).2.2.2.1,
        other := (fieldsTuple cls le entry).2.2.2.2.1,
        shndx := (fieldsTuple cls le entry).2.2.2.2.2 } := by
  cases cls <;> rfl

theorem next_ok_entry (lookup : List Nat → Nat → String) (cls : ElfClass) (le : Bool)
    (sections : List ElfSection) (secidx n i : Nat)
    (hlt : secidx < sections.length)
    (htyp : (sections.getD secidx default).typ = SHT_SYMTAB)
    (hes : (sections.getD secidx default).entsize = entrySize cls)
    (hlen : (sections.getD secidx default).content.length = n * entrySize cls)
    (hlink : (sections.getD secidx default).link < sections.length)
    (hst : (sections.getD (sections.getD secidx default).link default).typ = SHT_STRTAB)
    (hi : i < n) :
    SymtabIterator.next lookup ⟨cls, le, sections, secidx, i⟩ =
      (some (Except.ok (manualSymbol cls le lookup
         (sections.getD (sections.getD secidx default).link default).content
         (((sections.getD secidx default).content.drop
            ((sections.getD secidx default).entsize * i)).take (entrySize cls)))),
       ⟨cls, le, sections, secidx, i + 1⟩) := by
  have hespos : (sections.getD secidx default).entsize ≠ 0 := by
    rw [hes]; exact (entrySize_pos cls).ne'
  have hcnt : i < (sections.getD secidx default).content.length /
      (sections.getD secidx default).entsize := by
    rw [hes, hlen, Nat.mul_div_cancel n (entrySize_pos cls)]
    exact hi
  have hscan : scanOf (⟨cls, le, sections, secidx, i⟩ : SymtabIterator) =
      ScanResult.found secidx i := by
    show scanLoop (sections.drop secidx) secidx i = ScanResult.found secidx i
    exact scanLoop_found_self sections secidx i hlt htyp hespos hcnt
  rw [next_of_found lookup _ secidx i hscan]
  have hmul : (i + 1) * entrySize cls ≤ n * entrySize cls :=
    Nat.mul_le_mul_right _ hi
  rw [Nat.succ_mul] at hmul
  have hdata : entrySize cls ≤
      ((sections.getD secidx default).content.drop
        ((sections.getD secidx default).entsize * i)).length := by
    rw [List.length_drop, hlen, hes, Nat.mul_comm (entrySize cls) i]
    omega
  have hdec := decodeFields_eq_of_le cls le _ hdata
  rw [processEntry_ok lookup cls le sections secidx i _ _ _ _ _ _ hdec hlink hst]
  rw [manualSymbol_eq_fieldsTuple]
  cases cls <;> rfl

theorem runIter_section (lookup : List Nat → Nat → String) (cls : ElfClass) (le : Bool)
    (sections : List ElfSection) (secidx n : Nat)
    (hlt : secidx < sections.length)
    (htyp : (sections.getD secidx default).typ = SHT_SYMTAB)
    (hes : (sections.getD secidx default).entsize = entrySize cls)
    (hlen : (sections.getD secidx default).content.length = n * entrySize cls)
    (hlink : (sections.getD secidx default).link < sections.length)
    (hst : (sections.getD (sections.getD secidx default).link default).typ = SHT_STRTAB) :
    ∀ (m i : Nat), i + m = n →
      runIter lookup ⟨cls, le, sections, secidx, i⟩ m =
        ((List.range' i m).map (fun k => Except.ok (manualSymbol cls le lookup
            (sections.getD (sections.getD secidx default).link default).content
            (((sections.getD secidx default).content.drop
               ((sections.getD secidx default).entsize * k)).take (entrySize cls)))),
         ⟨cls, le, sections, secidx, n⟩) := by
  intro m
  induction m with
  | zero =>
    intro i hi
    have : i = n := by omega
    subst this
    simp [runIter]
  | succ m ih =>
    intro i hi
    have hin : i < n := by omega
    have hstep := next_ok_entry lookup cls le sections secidx n i
      hlt htyp hes hlen hlink hst hin
    have hrec := ih (i + 1) (by omega)
    simp only [runIter, hstep, hrec, List.range'_succ, List.map_cons]

/-- C1: for every class and endianness, a symbol-table section whose
entry size equals the active layout's size, whose content length is an
exact multiple n of it and whose link indexes a string-table section
yields, from its start, exactly n Ok symbols in increasing entry-index
order, each equal to the manual field-by-field decode of the entry's
byte slice under the active endianness, with the name resolved by the
lookup collaborator at the decoded name offset (value/size are the
numeric values of the 4-byte fields in the Elf32 case, i.e. widened
without change). -/
theorem claim_C1 (lookup : List Nat → Nat → String) (cls : ElfClass) (le : Bool)
    (sections : List ElfSection) (secidx n : Nat)
    (hlt : secidx < sections.length)
    (htyp : (sections.getD secidx default).typ = SHT_SYMTAB)
    (hes : (sections.getD secidx default).entsize = entrySize cls)
    (hlen : (sections.getD secidx default).content.length = n * entrySize cls)
    (hlink : (sections.getD secidx default).link < sections.length)
    (hst : (sections.getD (sections.getD secidx default).link default).typ = SHT_STRTAB) :
    runIter lookup ⟨cls, le, sections, secidx, 0⟩ n =
      ((List.range n).map (fun k => Except.ok (manualSymbol cls le lookup
          (sections.getD (sections.getD secidx default).link default).content
          (((sections.getD secidx default).content.drop
             ((sections.getD secidx default).entsize * k)).take (entrySize cls)))),
       ⟨cls, le, sections, secidx, n⟩) := by
  rw [List.range_eq_range']
  exact runIter_section lookup cls le sections secidx n hlt htyp hes hlen hlink hst n 0
    (by omega)

theorem claim_C1_witness :
    runIter (fun _ _ => "")
      ⟨ElfClass.Elf32, false,
        [⟨"", 2, 0, 0, 1, 0, 0, 16, [0, 0, 0, 1, 17, 34, 51, 68, 0, 0, 0, 0, 0, 0, 0, 0]⟩,
         ⟨"", 3, 0, 0, 0, 0, 0, 0, [0, 116, 101, 115, 116, 0]⟩], 0, 0⟩ 1 =
      ([Except.ok ⟨"", 287454020, 0, 0, 0, 0⟩],
       ⟨ElfClass.Elf32, false,
        [⟨"", 2, 0, 0, 1, 0, 0, 16, [0, 0, 0, 1, 17, 34, 51, 68, 0, 0, 0, 0, 0, 0, 0, 0]⟩,
         ⟨"", 3, 0, 0, 0, 0, 0, 0, [0, 116, 101, 115, 116, 0]⟩], 0, 1⟩) := by
  have h := claim_C1 (fun _ _ => "") ElfClass.Elf32 false
    [⟨"", 2, 0, 0, 1, 0, 0, 16, [0, 0, 0, 1, 17, 34, 51, 68, 0, 0, 0, 0, 0, 0, 0, 0]⟩,
     ⟨"", 3, 0, 0, 0, 0, 0, 0, [0, 116, 101, 115, 116, 0]⟩] 0 1
    (by decide) (by decide) (by decide) (by decide) (by decide) (by decide)
  rw [h]
  decide

/-- C2 (amended): after a decode, link-bound or link-type failure the
cursor stays at the failing entry, so the next call returns the same
error with the same state — the iterator does not advance past a
failing entry. -/
theorem claim_C2 (lookup : List Nat → Nat → String) (s s' : SymtabIterator)
    (e : ElfParserError)
    (h : SymtabIterator.next lookup s = (some (Except.error e), s'))
    (he : e ≠ ElfParserError.InvalidEntrySize) :
    SymtabIterator.next lookup s' = (some (Except.error e), s') :=
  next_error_sticky lookup s s' e h he

/-- C2 counterexample: one symbol-table section whose link names itself
(not a string table).  The first call fails with LinkNotStringTable and
returns the state with the cursor still at entry 0 (unchanged), and the
second call returns the very same error again — the iterator does not
resume at the following entry. -/
theorem claim_C2_counterexample :
    SymtabIterator.next (fun _ _ => "")
      ⟨ElfClass.Elf32, false, [⟨"", 2, 0, 0, 0, 0, 0, 16, List.replicate 16 0⟩], 0, 0⟩ =
      (some (Except.error ElfParserError.LinkNotStringTable),
       ⟨ElfClass.Elf32, false, [⟨"", 2, 0, 0, 0, 0, 0, 16, List.replicate 16 0⟩], 0, 0⟩) ∧
    runIter (fun _ _ => "")
      ⟨ElfClass.Elf32, false, [⟨"", 2, 0, 0, 0, 0, 0, 16, List.replicate 16 0⟩], 0, 0⟩ 2 =
      ([Except.error ElfParserError.LinkNotStringTable,
        Except.error ElfParserError.LinkNotStringTable],
       ⟨ElfClass.Elf32, false, [⟨"", 2, 0, 0, 0, 0, 0, 16, List.replicate 16 0⟩], 0, 0⟩) := by
  constructor
  · decide
  · decide

theorem claim_C2_witness :
    SymtabIterator.next (fun _ _ => "")
      ⟨ElfClass.Elf32, false, [⟨"", 2, 0, 0, 0, 0, 0, 16, List.replicate 16 0⟩], 0, 0⟩ =
      (some (Except.error ElfParserError.LinkNotStringTable),
       ⟨ElfClass.Elf32, false, [⟨"", 2, 0, 0, 0, 0, 0, 16, List.replicate 16 0⟩], 0, 0⟩) :=
  claim_C2 (fun _ _ => "")
    ⟨ElfClass.Elf32, false, [⟨"", 2, 0, 0, 0, 0, 0, 16, List.replicate 16 0⟩], 0, 0⟩
    ⟨ElfClass.Elf32, false, [⟨"", 2, 0, 0, 0, 0, 0, 16, List.replicate 16 0⟩], 0, 0⟩
    ElfParserError.LinkNotStringTable (by decide) (by decide)

theorem scanLoop_append_skip :
    ∀ (pre : List ElfSection) (a : Nat) (l : List ElfSection),
      (∀ sec ∈ pre, skipsAt sec 0) →
      scanLoop (pre ++ l) a 0 = scanLoop l (a + pre.length) 0 := by
  intro pre
  induction pre with
  | nil => intro a l _; simp
  | cons sec rest ih =>
    intro a l h
    rw [List.cons_append,
      scanLoop_skip sec (rest ++ l) a 0 (h sec (List.mem_cons_self sec rest))]
    rw [ih (a + 1) l (fun x hx => h x (List.mem_cons_of_mem sec hx))]
    congr 1
    simp
    omega

/-- C5: when the forward section scan, having skipped every earlier
section, lands on a symbol-table section with entry size 0, the call
returns InvalidEntrySize immediately and leaves the state unchanged.
The offending section's content is completely unconstrained (and never
inspected): the error precedes any entry read or entry-count
division. -/
theorem claim_C5 (lookup : List Nat → Nat → String) (cls : ElfClass) (le : Bool)
    (pre : List ElfSection) (bad : ElfSection) (rest : List ElfSection)
    (hpre : ∀ sec ∈ pre, skipsAt sec 0)
    (htyp : bad.typ = SHT_SYMTAB) (hes : bad.entsize = 0) :
    SymtabIterator.next lookup ⟨cls, le, pre ++ bad :: rest, 0, 0⟩ =
      (some (Except.error ElfParserError.InvalidEntrySize),
       ⟨cls, le, pre ++ bad :: rest, 0, 0⟩) := by
  apply next_of_errEntsize
  show scanLoop ((pre ++ bad :: rest).drop 0) 0 0 = ScanResult.errEntsize
  rw [List.drop_zero, scanLoop_append_skip pre 0 (bad :: rest) hpre]
  simp [scanLoop, htyp, hes]

theorem claim_C5_witness :
    SymtabIterator.next (fun _ _ => "")
      ⟨ElfClass.Elf32, false,
        [] ++ (⟨"", 2, 0, 0, 1, 0, 0, 0,
          [0, 0, 0, 1, 17, 34, 51, 68, 0, 0, 0, 0, 0, 0, 0, 0]⟩ : ElfSection) ::
          [⟨"", 3, 0, 0, 0, 0, 0, 0, [0, 116, 101, 115, 116, 0]⟩], 0, 0⟩ =
      (some (Except.error ElfParserError.InvalidEntrySize),
       ⟨ElfClass.Elf32, false,
        [] ++ (⟨"", 2, 0, 0, 1, 0, 0, 0,
          [0, 0, 0, 1, 17, 34, 51, 68, 0, 0, 0, 0, 0, 0, 0, 0]⟩ : ElfSection) ::
          [⟨"", 3, 0, 0, 0, 0, 0, 0, [0, 116, 101, 115, 116, 0]⟩], 0, 0⟩) :=
  claim_C5 (fun _ _ => "") ElfClass.Elf32 false []
    ⟨"", 2, 0, 0, 1, 0, 0, 0, [0, 0, 0, 1, 17, 34, 51, 68, 0, 0, 0, 0, 0, 0, 0, 0]⟩
    [⟨"", 3, 0, 0, 0, 0, 0, 0, [0, 116, 101, 115, 116, 0]⟩]
    (by intro sec h; cases h) (by decide) (by decide)

/-- C10: when the forward scan from the current cursor hits a
symbol-table section with entry size 0 (even one with empty content),
the stored cursor is not updated, so every one of the next n pulls
returns InvalidEntrySize with the state unchanged — sections after the
offending one are never visited. -/
theorem claim_C10 (lookup : List Nat → Nat → String) (s : SymtabIterator)
    (hscan : scanOf s = ScanResult.errEntsize) :
    ∀ n : Nat, runIter lookup s n =
      (List.replicate n (Except.error ElfParserError.InvalidEntrySize), s) := by
  have hnext := next_of_errEntsize lookup s hscan
  intro n
  induction n with
  | zero => simp [runIter]
  | succ n ih => simp [runIter, hnext, ih, List.replicate_succ]

theorem claim_C10_witness :
    runIter (fun _ _ => "")
      ⟨ElfClass.Elf32, false,
        [⟨"", 2, 0, 0, 1, 0, 0, 0, []⟩,
         ⟨"", 2, 0, 0, 2, 0, 0, 16, [0, 0, 0, 1, 17, 34, 51, 68, 0, 0, 0, 0, 0, 0, 0, 0]⟩,
         ⟨"", 3, 0, 0, 0, 0, 0, 0, [0, 116, 101, 115, 116, 0]⟩], 0, 0⟩ 3 =
      (List.replicate 3 (Except.error ElfParserError.InvalidEntrySize),
       ⟨ElfClass.Elf32, false,
        [⟨"", 2, 0, 0, 1, 0, 0, 0, []⟩,
         ⟨"", 2, 0, 0, 2, 0, 0, 16, [0, 0, 0, 1, 17, 34, 51, 68, 0, 0, 0, 0, 0, 0, 0, 0]⟩,
         ⟨"", 3, 0, 0, 0, 0, 0, 0, [0, 116, 101, 115, 116, 0]⟩], 0, 0⟩) :=
  claim_C10 (fun _ _ => "")
    ⟨ElfClass.Elf32, false,
      [⟨"", 2, 0, 0, 1, 0, 0, 0, []⟩,
       ⟨"", 2, 0, 0, 2, 0, 0, 16, [0, 0, 0, 1, 17, 34, 51, 68, 0, 0, 0, 0, 0, 0, 0, 0]⟩,
       ⟨"", 3, 0, 0, 0, 0, 0, 0, [0, 116, 101, 115, 116, 0]⟩], 0, 0⟩
    (by decide) 3

/-- C3 (amended): on a symbol-table section whose entry size is nonzero
but smaller than the active layout's record size, a pull that reaches
an entry of it yields MalformedEntry precisely when fewer than
record-size bytes remain from the entry's byte offset to the end of
the content; with at least record-size bytes remaining the pull does
not yield MalformedEntry (the entry decodes from wrongly-strided
bytes). -/
theorem claim_C3 (lookup : List Nat → Nat → String) (s : SymtabIterator)
    (secidx symidx : Nat)
    (hscan : scanOf s = ScanResult.found secidx symidx)
    (hsmall : (s.sections.getD secidx default).entsize < entrySize s.cls) :
    (SymtabIterator.next lookup s).1 = some (Except.error ElfParserError.MalformedEntry) ↔
      (s.sections.getD secidx default).content.length <
        (s.sections.getD secidx default).entsize * symidx + entrySize s.cls := by
  rw [next_of_found lookup s secidx symidx hscan]
  have hlen := decodeFields_none_iff s.cls s.le
    ((s.sections.getD secidx default).content.drop
      ((s.sections.getD secidx default).entsize * symidx))
  rw [List.length_drop] at hlen
  cases hdec : decodeFields s.cls s.le
      ((s.sections.getD secidx default).content.drop
        ((s.sections.getD secidx default).entsize * symidx)) with
  | none =>
    rw [hdec] at hlen
    simp only [true_iff] at hlen
    rw [processEntry_malformed lookup _ _ _ _ _ hdec]
    simp only [eq_self_iff_true, true_iff]
    omega
  | some t =>
    rw [hdec] at hlen
    simp only [iff_iff_implies_and_implies] at hlen
    have hlen2 := fun hx => hlen.2 hx
    have hlen3 : ¬ ((s.sections.getD secidx default).content.length -
        (s.sections.getD secidx default).entsize * symidx < entrySize s.cls) := by
      intro hx
      exact Option.some_ne_none _ (hlen2 hx)
    have hge : ¬ ((s.sections.getD secidx default).content.length <
        (s.sections.getD secidx default).entsize * symidx + entrySize s.cls) := by
      omega
    obtain ⟨nameoff, value, size, info, other, shndx⟩ := t
    by_cases hlink : s.sections.length ≤ (s.sections.getD secidx default).link
    · rw [processEntry_invalidLink lookup _ _ _ _ _ _ _ _ _ _ _ hdec hlink]
      exact ⟨fun hx => absurd hx (by simp), fun hx => absurd hx hge⟩
    · have hlink' := Nat.lt_of_not_le hlink
      by_cases hst : (s.sections.getD (s.sections.getD secidx default).link default).typ
          = SHT_STRTAB
      · rw [processEntry_ok lookup _ _ _ _ _ _ _ _ _ _ _ hdec hlink' hst]
        exact ⟨fun hx => absurd hx (by simp), fun hx => absurd hx hge⟩
      · rw [processEntry_linkNotStrtab lookup _ _ _ _ _ _ _ _ _ _ _ hdec hlink' hst]
        exact ⟨fun hx => absurd hx (by simp), fun hx => absurd hx hge⟩

/-- C3 counterexample: an Elf32 symbol-table section with entry size 15
(nonzero, below the 16-byte record size) and 30 content bytes: the
first pull reaches entry 0 with 30 bytes remaining and yields an Ok
symbol decoded from wrongly-strided bytes, not MalformedEntry. -/
theorem claim_C3_counterexample :
    (SymtabIterator.next (fun _ _ => "")
      ⟨ElfClass.Elf32, false,
        [⟨"", 2, 0, 0, 1, 0, 0, 15, List.replicate 30 0⟩,
         ⟨"", 3, 0, 0, 0, 0, 0, 0, [0, 116, 101, 115, 116, 0]⟩], 0, 0⟩).1 =
      some (Except.ok ⟨"", 0, 0, 0, 0, 0⟩) := by
  decide

theorem claim_C3_witness :
    (SymtabIterator.next (fun _ _ => "")
      ⟨ElfClass.Elf32, false,
        [⟨"", 2, 0, 0, 1, 0, 0, 15, List.replicate 15 0⟩,
         ⟨"", 3, 0, 0, 0, 0, 0, 0, [0, 116, 101, 115, 116, 0]⟩], 0, 0⟩).1 =
      some (Except.error ElfParserError.MalformedEntry) :=
  (claim_C3 (fun _ _ => "")
    ⟨ElfClass.Elf32, false,
      [⟨"", 2, 0, 0, 1, 0, 0, 15, List.replicate 15 0⟩,
       ⟨"", 3, 0, 0, 0, 0, 0, 0, [0, 116, 101, 115, 116, 0]⟩], 0, 0⟩
    0 0 (by decide) (by decide)).mpr (by decide)

/-- C6: for every entry reached by the scan (any cursor state), the
link bound is checked only after a successful decode, and the
linked-section type only after the link bound: a failed decode yields
MalformedEntry regardless of the link; with a successful decode an
out-of-bounds link yields InvalidLinkIndex; with a successful decode
and an in-bounds link a non-string-table linked section yields
LinkNotStringTable. -/
theorem claim_C6 (lookup : List Nat → Nat → String) (s : SymtabIterator)
    (secidx symidx : Nat)
    (hscan : scanOf s = ScanResult.found secidx symidx) :
    (decodeFields s.cls s.le ((s.sections.getD secidx default).content.drop
        ((s.sections.getD secidx default).entsize * symidx)) = none →
      SymtabIterator.next lookup s =
        (some (Except.error ElfParserError.MalformedEntry),
         ⟨s.cls, s.le, s.sections, secidx, symidx⟩)) ∧
    (∀ nameoff value size info other shndx : Nat,
      decodeFields s.cls s.le ((s.sections.getD secidx default).content.drop
        ((s.sections.getD secidx default).entsize * symidx)) =
          some (nameoff, value, size, info, other, shndx) →
      s.sections.length ≤ (s.sections.getD secidx default).link →
      SymtabIterator.next lookup s =
        (some (Except.error ElfParserError.InvalidLinkIndex),
         ⟨s.cls, s.le, s.sections, secidx, symidx⟩)) ∧
    (∀ nameoff value size info other shndx : Nat,
      decodeFields s.cls s.le ((s.sections.getD secidx default).content.drop
        ((s.sections.getD secidx default).entsize * symidx)) =
          some (nameoff, value, size, info, other, shndx) →
      (s.sections.getD secidx default).link < s.sections.length →
      (s.sections.getD (s.sections.getD secidx default).link default).typ ≠ SHT_STRTAB →
      SymtabIterator.next lookup s =
        (some (Except.error ElfParserError.LinkNotStringTable),
         ⟨s.cls, s.le, s.sections, secidx, symidx⟩)) := by
  refine ⟨?_, ?_, ?_⟩
  · intro hdec
    rw [next_of_found lookup s secidx symidx hscan]
    exact processEntry_malformed lookup _ _ _ _ _ hdec
  · intro nameoff value size info other shndx hdec hlink
    rw [next_of_found lookup s secidx symidx hscan]
    exact processEntry_invalidLink lookup _ _ _ _ _ _ _ _ _ _ _ hdec hlink
  · intro nameoff value size info other shndx hdec hlink hst
    rw [next_of_found lookup s secidx symidx hscan]
    exact processEntry_linkNotStrtab lookup _ _ _ _ _ _ _ _ _ _ _ hdec hlink hst

theorem claim_C6_witness :
    SymtabIterator.next (fun _ _ => "")
      ⟨ElfClass.Elf32, false, [⟨"", 2, 0, 0, 5, 0, 0, 16, List.replicate 16 0⟩], 0, 0⟩ =
      (some (Except.error ElfParserError.InvalidLinkIndex),
       ⟨ElfClass.Elf32, false, [⟨"", 2, 0, 0, 5, 0, 0, 16, List.replicate 16 0⟩], 0, 0⟩) :=
  (claim_C6 (fun _ _ => "")
    ⟨ElfClass.Elf32, false, [⟨"", 2, 0, 0, 5, 0, 0, 16, List.replicate 16 0⟩], 0, 0⟩
    0 0 (by decide)).2.1 0 0 0 0 0 0 (by decide) (by decide)

/-- C8: a successful section scan lands on the first symbol-table
section at or after the cursor that still has a whole entry left: the
landing section is symbol-table-typed with nonzero entry size and an
undecoded entry at the landing entry index; the entry index is the
stored one if no section boundary was crossed and is reset to zero
otherwise; and every section passed over was skipped — not
symbol-table-typed, or without a whole entry remaining — without any
decoding. -/
theorem claim_C8 (s : SymtabIterator) (secidx symidx : Nat)
    (hscan : scanOf s = ScanResult.found secidx symidx) :
    s.curr_secidx ≤ secidx ∧ secidx < s.sections.length ∧
    (s.sections.getD secidx default).typ = SHT_SYMTAB ∧
    (s.sections.getD secidx default).entsize ≠ 0 ∧
    symidx < (s.sections.getD secidx default).content.length /
      (s.sections.getD secidx default).entsize ∧
    (secidx = s.curr_secidx → symidx = s.curr_symidx) ∧
    (s.curr_secidx < secidx → symidx = 0) ∧
    (∀ j, s.curr_secidx ≤ j → j < secidx →
      skipsAt (s.sections.getD j default)
        (if j = s.curr_secidx then s.curr_symidx else 0)) := by
  have hscan' : scanLoop (s.sections.drop s.curr_secidx) s.curr_secidx s.curr_symidx =
      ScanResult.found secidx symidx := hscan
  obtain ⟨h1, h2, h3, h4, h5, h6, h7, h8⟩ := scanLoop_found_spec _ _ _ _ _ hscan'
  rw [getD_drop_eq, Nat.add_sub_cancel' h1] at h3 h4 h5
  rw [List.length_drop] at h2
  refine ⟨h1, by omega, h3, h4, h5, h6, h7, ?_⟩
  intro j hj1 hj2
  have := h8 (j - s.curr_secidx) (by omega)
  rw [getD_drop_eq, Nat.add_sub_cancel' hj1] at this
  by_cases hj : j = s.curr_secidx
  · subst hj
    simpa using this
  · have : skipsAt (s.sections.getD j default) 0 := by
      have hne : j - s.curr_secidx ≠ 0 := by omega
      simpa [hne] using this
    simpa [hj] using this

theorem claim_C8_witness :
    0 ≤ 1 ∧ 1 < 2 ∧
    (([⟨"", 1, 0, 0, 0, 0, 0, 0, []⟩,
       ⟨"", 2, 0, 0, 0, 0, 0, 16, List.replicate 16 0⟩] :
        List ElfSection).getD 1 default).typ = SHT_SYMTAB ∧
    (([⟨"", 1, 0, 0, 0, 0, 0, 0, []⟩,
       ⟨"", 2, 0, 0, 0, 0, 0, 16, List.replicate 16 0⟩] :
        List ElfSection).getD 1 default).entsize ≠ 0 ∧
    0 < (([⟨"", 1, 0, 0, 0, 0, 0, 0, []⟩,
       ⟨"", 2, 0, 0, 0, 0, 0, 16, List.replicate 16 0⟩] :
        List ElfSection).getD 1 default).content.length /
      (([⟨"", 1, 0, 0, 0, 0, 0, 0, []⟩,
       ⟨"", 2, 0, 0, 0, 0, 0, 16, List.replicate 16 0⟩] :
        List ElfSection).getD 1 default).entsize ∧
    (1 = 0 → 0 = 0) ∧ (0 < 1 → 0 = 0) ∧
    (∀ j, 0 ≤ j → j < 1 →
      skipsAt (([⟨"", 1, 0, 0, 0, 0, 0, 0, []⟩,
        ⟨"", 2, 0, 0, 0, 0, 0, 16, List.replicate 16 0⟩] :
         List ElfSection).getD j default)
        (if j = 0 then 0 else 0)) :=
  claim_C8
    ⟨ElfClass.Elf32, false,
      [⟨"", 1, 0, 0, 0, 0, 0, 0, []⟩,
       ⟨"", 2, 0, 0, 0, 0, 0, 16, List.replicate 16 0⟩], 0, 0⟩
    1 0 (by decide)

theorem getD_eq_getElem {α : Type} (l : List α) (i : Nat) (d : α) (h : i < l.length) :
    l.getD i d = l.get ⟨i, h⟩ := by
  simp [List.getD_eq_getElem?_getD, List.getElem?_eq_getElem h]

theorem sum_take_add_getD_le (ws : List Nat) (i : Nat) (h : i < ws.length) :
    (ws.take i).sum + ws.getD i 0 ≤ stpack.allsize ws := by
  rw [stpack.allsize_eq_sum]
  have hgd : ws.getD i 0 = ws.get ⟨i, h⟩ := getD_eq_getElem ws i 0 h
  have hs : (ws.take (i + 1)).sum = (ws.take i).sum + ws.get ⟨i, h⟩ :=
    List.sum_take_succ ws i h
  have hsplit : ws.sum = (ws.take (i + 1)).sum + (ws.drop (i + 1)).sum := by
    rw [← List.sum_append, List.take_append_drop]
  omega

/-- C4: for records declared through the unpacker facility, SIZE is the
exact sum of the declared field widths (16 and 24 for the two entry
layouts), decoding fails exactly when the input is shorter than SIZE
with no partial record, and otherwise yields the record whose fields
are, in declared order, the unsigned values of the width-sized slices
at the cumulative byte offsets under the requested endianness,
together with the remainder after the first SIZE bytes; the record
never depends on bytes past SIZE. -/
theorem claim_C4 :
    (∀ widths : List Nat, stpack.allsize widths = widths.sum) ∧
    Elf32SymtabEntry.SIZE = 16 ∧ Elf64SymtabEntry.SIZE = 24 ∧
    (∀ (widths : List Nat) (le : Bool) (data : List Nat),
      stpack.unpack widths le data = none ↔ data.length < stpack.allsize widths) ∧
    (∀ (widths : List Nat) (le : Bool) (data : List Nat),
      stpack.allsize widths ≤ data.length →
      ∃ flds, stpack.unpack widths le data = some (flds, data.drop (stpack.allsize widths)) ∧
        flds.length = widths.length ∧
        ∀ i, i < widths.length →
          flds.getD i 0 = readUInt le data ((widths.take i).sum) (widths.getD i 0)) ∧
    (∀ (widths : List Nat) (le : Bool) (data extra : List Nat),
      stpack.allsize widths ≤ data.length →
      Option.map Prod.fst (stpack.unpack widths le (data.take (stpack.allsize widths) ++ extra)) =
        Option.map Prod.fst (stpack.unpack widths le data)) := by
  refine ⟨stpack.allsize_eq_sum, by decide, by decide, stpack.unpack_none_iff, ?_, ?_⟩
  · intro widths le data h
    refine ⟨stpack.readFields le (data.take (stpack.allsize widths)) 0 widths,
      stpack.unpack_eq_of_le widths le data h, stpack.readFields_length le _ widths 0, ?_⟩
    intro i hi
    rw [stpack.readFields_getD le _ widths 0 i hi]
    rw [Nat.zero_add]
    rw [readUInt]
    congr 1
    exact take_drop_take data (stpack.allsize widths) ((widths.take i).sum) (widths.getD i 0)
      (sum_take_add_getD_le widths i hi)
  · intro widths le data extra h
    have hlen1 : (data.take (stpack.allsize widths)).length = stpack.allsize widths := by
      rw [List.length_take]
      omega
    have hlen2 : (data.take (stpack.allsize widths) ++ extra).length =
        stpack.allsize widths + extra.length := by
      rw [List.length_append, hlen1]
    rw [stpack.unpack_eq_of_le widths le _ (by omega),
        stpack.unpack_eq_of_le widths le data h]
    simp only [Option.map_some']
    congr 2
    have htl := List.take_left (data.take (stpack.allsize widths)) extra
    rw [hlen1] at htl
    rw [htl]

theorem claim_C4_witness :
    ∃ flds,
      stpack.unpack Elf32SymtabEntry.widths true (List.range 20) =
        some (flds, (List.range 20).drop (stpack.allsize Elf32SymtabEntry.widths)) ∧
      flds.length = Elf32SymtabEntry.widths.length ∧
      ∀ i, i < Elf32SymtabEntry.widths.length →
        flds.getD i 0 = readUInt true (List.range 20)
          ((Elf32SymtabEntry.widths.take i).sum) (Elf32SymtabEntry.widths.getD i 0) :=
  claim_C4.2.2.2.2.1 Elf32SymtabEntry.widths true (List.range 20) (by decide)

/-- C7: all failure is by value, never out-of-bounds access: the
generic decoder fails exactly on too-short input (total, no partial
state), each internal field slice taken from the first SIZE bytes has
exactly the field's width (so the slice-to-array conversion in the
generated code cannot fail), and whenever the iterator's scan commits
to an entry the byte offset entry_size * entry_index at which the
content slice is taken is within the content's bounds (and the section
index is within the section list). -/
theorem claim_C7 :
    (∀ (widths : List Nat) (le : Bool) (data : List Nat),
      stpack.unpack widths le data = none ↔ data.length < stpack.allsize widths) ∧
    (∀ (widths data : List Nat) (i : Nat), i < widths.length →
      stpack.allsize widths ≤ data.length →
      (((data.take (stpack.allsize widths)).drop ((widths.take i).sum)).take
        (widths.getD i 0)).length = widths.getD i 0) ∧
    (∀ (s : SymtabIterator) (secidx symidx : Nat),
      scanOf s = ScanResult.found secidx symidx →
      secidx < s.sections.length ∧
      (s.sections.getD secidx default).entsize * symidx ≤
        (s.sections.getD secidx default).content.length) := by
  refine ⟨stpack.unpack_none_iff, ?_, ?_⟩
  · intro widths data i hi h
    have hsum := sum_take_add_getD_le widths i hi
    rw [List.length_take, List.length_drop, List.length_take]
    omega
  · intro s secidx symidx hscan
    obtain ⟨hlt, -, hes, hcnt⟩ := scanOf_found_props s secidx symidx hscan
    refine ⟨hlt, ?_⟩
    have h1 : symidx + 1 ≤ (s.sections.getD secidx default).content.length /
        (s.sections.getD secidx default).entsize := hcnt
    have h2 : (symidx + 1) * (s.sections.getD secidx default).entsize ≤
        ((s.sections.getD secidx default).content.length /
          (s.sections.getD secidx default).entsize) *
          (s.sections.getD secidx default).entsize :=
      Nat.mul_le_mul_right _ h1
    have h3 : ((s.sections.getD secidx default).content.length /
        (s.sections.getD secidx default).entsize) *
        (s.sections.getD secidx default).entsize ≤
        (s.sections.getD secidx default).content.length :=
      Nat.div_mul_le_self _ _
    rw [Nat.succ_mul] at h2
    rw [Nat.mul_comm]
    omega

theorem claim_C7_witness :
    0 < ([⟨"", 2, 0, 0, 1, 0, 0, 16, List.replicate 16 0⟩,
          ⟨"", 3, 0, 0, 0, 0, 0, 0, [0]⟩] : List ElfSection).length ∧
    (([⟨"", 2, 0, 0, 1, 0, 0, 16, List.replicate 16 0⟩,
       ⟨"", 3, 0, 0, 0, 0, 0, 0, [0]⟩] : List ElfSection).getD 0 default).entsize * 0 ≤
      (([⟨"", 2, 0, 0, 1, 0, 0, 16, List.replicate 16 0⟩,
         ⟨"", 3, 0, 0, 0, 0, 0, 0, [0]⟩] : List ElfSection).getD 0 default).content.length :=
  claim_C7.2.2
    ⟨ElfClass.Elf32, false,
      [⟨"", 2, 0, 0, 1, 0, 0, 16, List.replicate 16 0⟩,
       ⟨"", 3, 0, 0, 0, 0, 0, 0, [0]⟩], 0, 0⟩
    0 0 (by decide)

theorem natToBytesLE_length (w v : Nat) : (natToBytesLE w v).length = w := by
  induction w generalizing v with
  | zero => rfl
  | succ w ih => simp [natToBytesLE, ih]

theorem natToBytes_length (le : Bool) (w v : Nat) : (natToBytes le w v).length = w := by
  cases le <;> simp [natToBytes, natToBytesLE_length]

theorem bytesToNatLE_cons (b : Nat) (bs : List Nat) :
    stpack.bytesToNatLE (b :: bs) = b + 256 * stpack.bytesToNatLE bs := rfl

theorem bytesToNatLE_natToBytesLE (w v : Nat) (h : v < 256 ^ w) :
    stpack.bytesToNatLE (natToBytesLE w v) = v := by
  induction w generalizing v with
  | zero =>
    have : v = 0 := by simpa using h
    subst this
    rfl
  | succ w ih =>
    have hdiv : v / 256 < 256 ^ w := by
      rw [Nat.div_lt_iff_lt_mul (by omega : 0 < 256)]
      rw [Nat.pow_succ] at h
      omega
    rw [natToBytesLE, bytesToNatLE_cons, ih (v / 256) hdiv]
    have := Nat.mod_add_div v 256
    omega

theorem bytesToNatBE_append_singleton (bs : List Nat) (b : Nat) :
    stpack.bytesToNatBE (bs ++ [b]) = stpack.bytesToNatBE bs * 256 + b := by
  rw [stpack.bytesToNatBE, List.foldl_append]
  rfl

theorem bytesToNatBE_reverse (bs : List Nat) :
    stpack.bytesToNatBE bs.reverse = stpack.bytesToNatLE bs := by
  induction bs with
  | nil => rfl
  | cons b rest ih =>
    rw [List.reverse_cons, bytesToNatBE_append_singleton, ih, bytesToNatLE_cons]
    omega

theorem readOne_natToBytes (le : Bool) (w v : Nat) (h : v < 256 ^ w) :
    stpack.readOne le (natToBytes le w v) = v := by
  cases le
  · rw [natToBytes, if_neg (by simp), stpack.readOne, if_neg (by simp),
      bytesToNatBE_reverse]
    exact bytesToNatLE_natToBytesLE w v h
  · rw [natToBytes, if_pos rfl, stpack.readOne, if_pos rfl]
    exact bytesToNatLE_natToBytesLE w v h

theorem encodeRecord_length (le : Bool) :
    ∀ (ws vs : List Nat), vs.length = ws.length →
      (encodeRecord le ws vs).length = stpack.allsize ws := by
  intro ws
  induction ws with
  | nil => intro vs h; cases vs <;> simp_all [encodeRecord, stpack.allsize]
  | cons w ws ih =>
    intro vs h
    cases vs with
    | nil => simp at h
    | cons v vs =>
      rw [encodeRecord, List.length_append, natToBytes_length,
        ih vs (by simpa using h), stpack.allsize_cons]

theorem readFields_encode (le : Bool) :
    ∀ (ws vs pre : List Nat), vs.length = ws.length →
      (∀ p ∈ vs.zip ws, p.1 < 256 ^ p.2) →
      stpack.readFields le (pre ++ encodeRecord le ws vs) pre.length ws = vs := by
  intro ws
  induction ws with
  | nil => intro vs pre h _; cases vs <;> simp_all [stpack.readFields]
  | cons w ws ih =>
    intro vs pre h hb
    cases vs with
    | nil => simp at h
    | cons v vs =>
      rw [encodeRecord, stpack.readFields]
      have hdrop : (pre ++ (natToBytes le w v ++ encodeRecord le ws vs)).drop pre.length =
          natToBytes le w v ++ encodeRecord le ws vs := List.drop_left pre _
      have htake : (natToBytes le w v ++ encodeRecord le ws vs).take w = natToBytes le w v := by
        have := List.take_left (natToBytes le w v) (encodeRecord le ws vs)
        rwa [natToBytes_length] at this
      rw [hdrop, htake, readOne_natToBytes le w v (hb (v, w) (by simp))]
      have hpre : pre.length + w = (pre ++ natToBytes le w v).length := by
        rw [List.length_append, natToBytes_length]
      have hassoc : pre ++ (natToBytes le w v ++ encodeRecord le ws vs) =
          (pre ++ natToBytes le w v) ++ encodeRecord le ws vs := by
        rw [List.append_assoc]
      rw [hpre, hassoc, ih vs (pre ++ natToBytes le w v) (by simpa using h)
        (fun p hp => hb p (by simp [hp]))]

/-- C9: for both entry layouts and both endiannesses, encoding a
record's field values (in declared order, each field as its width-sized
byte representation under the endianness) and decoding the bytes with
the generic unpacker under the same endianness reproduces the original
field values exactly, with an empty remainder. -/
theorem claim_C9 (cls : ElfClass) (le : Bool) (vals : List Nat)
    (hlen : vals.length = (layoutWidths cls).length)
    (hbound : ∀ p ∈ vals.zip (layoutWidths cls), p.1 < 256 ^ p.2) :
    stpack.unpack (layoutWidths cls) le (encodeRecord le (layoutWidths cls) vals) =
      some (vals, []) := by
  have henc : (encodeRecord le (layoutWidths cls) vals).length =
      stpack.allsize (layoutWidths cls) :=
    encodeRecord_length le (layoutWidths cls) vals hlen
  rw [stpack.unpack_eq_of_le _ le _ (Nat.le_of_eq henc.symm)]
  have htake : (encodeRecord le (layoutWidths cls) vals).take
      (stpack.allsize (layoutWidths cls)) = encodeRecord le (layoutWidths cls) vals := by
    rw [← henc, List.take_length]
  have hdrop : (encodeRecord le (layoutWidths cls) vals).drop
      (stpack.allsize (layoutWidths cls)) = [] := by
    rw [← henc, List.drop_length]
  rw [htake, hdrop]
  have := readFields_encode le (layoutWidths cls) vals [] hlen hbound
  simpa using this

theorem claim_C9_witness :
    stpack.unpack (layoutWidths ElfClass.Elf32) false
      (encodeRecord false (layoutWidths ElfClass.Elf32) [1, 287454020, 0, 0, 0, 0]) =
      some ([1, 287454020, 0, 0, 0, 0], []) :=
  claim_C9 ElfClass.Elf32 false [1, 287454020, 0, 0, 0, 0] (by decide) (by decide)
